import Mathlib

/-!
Verification of the extension activity-log counting policy (the batched,
merging, self-expiring event log store described in spec.md, exercised by
chrome/browser/extensions/activity_log/counting_policy_unittest.cc).

The implementation file (counting_policy.cc) is not among the provided
sources; only its unit test is.  The definitions below are therefore
modelled from the specification, with every behavioural point that the
in-tree unit test pins taken from the test (the test is authoritative
where it and the spec disagree).  Timestamps are natural numbers counting
seconds; a day bucket is the timestamp divided by the number of seconds in
a day, which models the local-midnight-aligned day index of the spec.
-/

namespace CountingPolicy

/-- Modelled from the spec: the action types of the record model (§3).
`any` is the query-only wildcard. -/
inductive ActionType where
  | apiCall
  | domAccess
  | contentScript
  | any
  deriving DecidableEq, Repr

/-- Modelled from the spec: an ActionRecord (§3).  Optional URL fields are
strings with `""` denoting absence; `args` is `none` when the record
carries no argument data. -/
structure ActionRecord where
  extension_id : String
  time : Nat
  action_type : ActionType
  api_name : String
  args : Option (List String)
  page_url : String
  page_title : String
  arg_url : String
  count : Nat
  deriving DecidableEq, Repr

/-- Modelled from the spec: seconds per day, the width of a day bucket. -/
def daySecs : Nat := 86400

/-- Modelled from the spec: `day_bucket(t)` is the midnight-aligned day
index of timestamp `t` (§4.2). -/
def dayBucket (t : Nat) : Nat := t / daySecs

/-- Modelled from the spec (§3) as pinned by the unit test: the designated
allow-list of (action type, API name) pairs governing argument handling.
The test `Arguments_Stripped` shows that `extension.connect` keeps its
arguments while `GetTodaysActions` shows that the API call `brewster`
loses them, so the list enumerates the API calls whose arguments are
KEPT; all other API_CALL records have their arguments dropped. -/
def argAllowList : List (ActionType × String) :=
  [(ActionType.apiCall, "extension.connect"),
   (ActionType.apiCall, "extension.sendMessage"),
   (ActionType.apiCall, "tabs.executeScript"),
   (ActionType.apiCall, "tabs.insertCSS")]

/-- Modelled from the spec (§4.2) as pinned by the unit test: argument
stripping happens before any key derivation.  An API_CALL whose
(type, name) pair is not on `argAllowList` has its arguments forced to
the empty canonical form; DOM accesses keep their arguments (the test
`GetTodaysActions` reads back `ARGS=["vamoose"]` for a DOM access). -/
def stripArgs (a : ActionRecord) : ActionRecord :=
  if a.action_type = ActionType.apiCall ∧ (a.action_type, a.api_name) ∉ argAllowList then
    { a with args := none }
  else a

/-- Modelled from the spec: the MergeKey fields (§3): extension id, day
bucket, action type, API name, canonical arguments, page URL and argument
URL.  The page title and the count are not part of the key. -/
structure MergeKey where
  ext : String
  day : Nat
  typ : ActionType
  api : String
  args : Option (List String)
  page_url : String
  arg_url : String
  deriving DecidableEq, Repr

/-- Modelled from the spec: the MergeKey derivation of a record (§3);
two records merge iff their keys are equal. -/
def mergeKey (a : ActionRecord) : MergeKey :=
  { ext := a.extension_id, day := dayBucket a.time, typ := a.action_type,
    api := a.api_name, args := a.args, page_url := a.page_url,
    arg_url := a.arg_url }

/-- Modelled from the spec: the merge rule (§4.1, §4.3): the count of the
incoming record accumulates and the row keeps the maximum timestamp. -/
def mergeInto (r incoming : ActionRecord) : ActionRecord :=
  { r with count := r.count + incoming.count, time := max r.time incoming.time }

/-- Modelled from the spec: upsert-merge of one record into a row list
(§4.3): the first row with an equal MergeKey absorbs the record; if none
exists the record is appended as a new row. -/
def upsertRow : List ActionRecord → ActionRecord → List ActionRecord
  | [], a => [a]
  | r :: rest, a =>
    if mergeKey r = mergeKey a then mergeInto r a :: rest
    else r :: upsertRow rest a

/-- Modelled from the spec: canonical serialization of an argument list
(§4.2), used as the interned argument blob. -/
def serializeArgs (as : List String) : String := String.intercalate "," as

/-- Modelled from the spec: the strings a persisted row makes the
dictionary retain (§3): its extension id, API name, and argument blob. -/
def rowStrings (r : ActionRecord) : List String :=
  r.extension_id :: r.api_name ::
    (match r.args with
     | some as => [serializeArgs as]
     | none => [])

/-- Modelled from the spec: the URLs a persisted row makes the URL
dictionary retain (§3): its page URL and argument URL when present. -/
def rowUrls (r : ActionRecord) : List String :=
  (if r.page_url = "" then [] else [r.page_url]) ++
    (if r.arg_url = "" then [] else [r.arg_url])

/-- Modelled from the spec: the set of string-dictionary entries
referenced by a row list (§4.4 step 2). -/
def referencedStrings (db : List ActionRecord) : List String :=
  db.foldr (fun r acc => rowStrings r ++ acc) []

/-- Modelled from the spec: the set of URL-dictionary entries referenced
by a row list (§4.4 step 2). -/
def referencedUrls (db : List ActionRecord) : List String :=
  db.foldr (fun r acc => rowUrls r ++ acc) []

/-- Modelled from the spec: the whole policy state: the in-memory merge
buffer, the persisted rows, the two interning dictionaries, the retention
window and the janitor's last-sweep time (§2, §4.4). -/
structure PolicyState where
  queued : List ActionRecord
  db : List ActionRecord
  strings : List String
  urls : List String
  retention_secs : Nat
  last_cleaning_time : Nat
  deriving DecidableEq, Repr

/-- Modelled from the spec: the flush-on-full threshold for the merge
buffer; the tested ceiling is 200 entries (§4.1, `CheckQueueSize`). -/
def kSizeThresholdForFlush : Nat := 200

/-- Modelled from the spec: the minimum inter-sweep interval that rate
limits the retention janitor (§4.4).  The spec pins only its existence,
not its exact value; twelve hours is used here. -/
def cleaningIntervalSecs : Nat := 43200

/-- Modelled from the spec: interning of dictionary entries: each value
not already present is appended once (§3). -/
def insertNew (dict : List String) (xs : List String) : List String :=
  xs.foldl (fun d x => if x ∈ d then d else d ++ [x]) dict

/-- Modelled from the spec: a flush task (§4.3): every buffered entry is
upsert-merged into the persistent store, the dictionaries intern the
strings and URLs of the flushed entries, and the buffer is cleared. -/
def flushOnly (s : PolicyState) : PolicyState :=
  { s with db := s.queued.foldl upsertRow s.db,
           queued := [],
           strings := insertNew s.strings (referencedStrings s.queued),
           urls := insertNew s.urls (referencedUrls s.queued) }

/-- Modelled from the spec: the retention sweep (§4.4): first delete every
persisted row whose day bucket is older than `now - retention`, then
recompute the referenced string and URL sets and drop every dictionary
entry not in them, and finally record the sweep time. -/
def sweep (now : Nat) (s : PolicyState) : PolicyState :=
  let cutoff := dayBucket (now - s.retention_secs)
  let db2 := s.db.filter (fun r => decide (cutoff ≤ dayBucket r.time))
  { s with db := db2,
           strings := s.strings.filter (fun str => decide (str ∈ referencedStrings db2)),
           urls := s.urls.filter (fun u => decide (u ∈ referencedUrls db2)),
           last_cleaning_time := now }

/-- Modelled from the spec: a maintain task (§4.4): the sweep runs only
when the time since the last sweep exceeds the rate-limit interval. -/
def maintain (now : Nat) (s : PolicyState) : PolicyState :=
  if cleaningIntervalSecs < now - s.last_cleaning_time then sweep now s else s

/-- Modelled from the spec: `submit` (§4.1, `ProcessAction`): the record's
arguments are canonicalized, it is merged into the buffer by MergeKey,
and if the number of distinct buffered entries exceeds the threshold the
whole buffer is handed over as one flush task (which also gives the
janitor its chance to run, §4.3-§4.4). -/
def processAction (now : Nat) (s : PolicyState) (a : ActionRecord) : PolicyState :=
  let q := upsertRow s.queued (stripArgs a)
  let s1 := { s with queued := q }
  if kSizeThresholdForFlush < q.length then maintain now (flushOnly s1) else s1

/-- Modelled from the spec: the query engine's combined view (§4.5): the
union of persisted rows and buffered entries, the buffered entries merged
in with the same max-time, summed-count rule, mutating neither source. -/
def mergedView (s : PolicyState) : List ActionRecord :=
  s.queued.foldl upsertRow s.db

/-- Modelled from the spec: insertion step of the descending-by-time
ordering of read results (§4.5). -/
def insertDesc (r : ActionRecord) : List ActionRecord → List ActionRecord
  | [] => [r]
  | x :: xs => if x.time ≤ r.time then r :: x :: xs else x :: insertDesc r xs

/-- Modelled from the spec: read results are ordered most recently
updated first, descending by time (§4.5). -/
def sortByTimeDesc : List ActionRecord → List ActionRecord
  | [] => []
  | r :: rest => insertDesc r (sortByTimeDesc rest)

/-- Modelled from the spec: `readData` (§4.5): all merged rows of the
given extension whose bucket equals today minus the day offset, in
descending time order. -/
def readData (s : PolicyState) (now : Nat) (ext : String) (dayOffset : Nat) :
    List ActionRecord :=
  sortByTimeDesc ((mergedView s).filter
    (fun r => decide (r.extension_id = ext ∧ dayBucket r.time = dayBucket now - dayOffset)))

/-- Modelled from the spec: the filter record of `readFilteredData`
(§4.5); `pageUrlStart` is the page-URL string-prefix constraint. -/
structure QueryFilter where
  ext : String
  typ : ActionType
  api : String
  pageUrlStart : String
  argUrl : String
  deriving DecidableEq, Repr

/-- Modelled from the spec: the string-prefix test used by the query
filters (§4.5): does `s` start with `p`, checked over the underlying
character lists. -/
def strStartsWith (p s : String) : Bool := p.data.isPrefixOf s.data

/-- Modelled from the spec: the match predicate of `readFilteredData`
(§4.5): empty extension id matches every extension, type ANY matches all
types, the API name and page URL constraints are string-prefix matches
(empty means unconstrained), and the argument URL is matched exactly
(empty means unconstrained). -/
def matchesFilter (f : QueryFilter) (r : ActionRecord) : Bool :=
  (f.ext == "" || r.extension_id == f.ext) &&
  (f.typ == ActionType.any || r.action_type == f.typ) &&
  strStartsWith f.api r.api_name &&
  strStartsWith f.pageUrlStart r.page_url &&
  (f.argUrl == "" || r.arg_url == f.argUrl)

/-- Modelled from the spec: `readFilteredData` (§4.5): scans the combined
view across all buckets and returns each matching merged row. -/
def readFilteredData (s : PolicyState) (f : QueryFilter) : List ActionRecord :=
  (mergedView s).filter (matchesFilter f)

/-- Modelled from the spec: whether a URL field value is hit by a
`removeURLs` request: an empty request list matches everything (§4.6). -/
def urlMatches (urls : List String) (u : String) : Bool :=
  urls.isEmpty || decide (u ∈ urls)

/-- Modelled from the spec: half of the per-row scrub (§4.6): if the page
URL is hit, clear the page URL and the page title together. -/
def scrubPage (urls : List String) (r : ActionRecord) : ActionRecord :=
  if urlMatches urls r.page_url then { r with page_url := "", page_title := "" } else r

/-- Modelled from the spec: the other half of the per-row scrub (§4.6):
if the argument URL is hit, clear it. -/
def scrubArg (urls : List String) (r : ActionRecord) : ActionRecord :=
  if urlMatches urls r.arg_url then { r with arg_url := "" } else r

/-- Modelled from the spec: the per-row scrub (§4.6): the page-URL clear
and the argument-URL clear are applied independently; nothing else on the
row changes. -/
def scrubRow (urls : List String) (r : ActionRecord) : ActionRecord :=
  scrubArg urls (scrubPage urls r)

/-- Modelled from the spec: `removeURLs` (§4.6) as pinned by the unit
test: the buffered entries are first flushed into the store (the test
`RemoveAllURLs` observes two separate scrubbed rows afterwards, so the
scrub must not cause buffered entries to re-merge), then every persisted
row is scrubbed in place; rows, key identities and counts survive. -/
def removeURLs (_now : Nat) (urls : List String) (s : PolicyState) : PolicyState :=
  let sf := flushOnly s
  { sf with db := sf.db.map (scrubRow urls) }

/-- Modelled from the spec: `setRetention` (§6). -/
def set_retention (d : Nat) (s : PolicyState) : PolicyState :=
  { s with retention_secs := d }

/-- Modelled from the spec: `forceCleaningNow` (§6): reset the last sweep
time to the epoch so the next maintain task fires. -/
def forceCleaningNow (s : PolicyState) : PolicyState :=
  { s with last_cleaning_time := 0 }

/-- Modelled from the spec: the timer-driven flush of a non-empty buffer
(§4.3), which is also when the janitor gets its chance to run. -/
def forceFlush (now : Nat) (s : PolicyState) : PolicyState :=
  maintain now (flushOnly s)

/-- Modelled from the spec: the initial policy state: empty buffer, empty
store and dictionaries, the default retention window, and a last-sweep
time at the epoch so the first sweep always fires (§4.4). -/
def initState : PolicyState :=
  { queued := [], db := [], strings := [], urls := [],
    retention_secs := 60 * daySecs, last_cleaning_time := 0 }

/-- Maximum timestamp of a list of submitted records. -/
def maxTimeOf (recs : List ActionRecord) : Nat :=
  recs.foldl (fun m r => max m r.time) 0

/-- The MergeKey fields other than the day bucket, used to state that two
records agree on everything except the day. -/
def keyNoDay (a : ActionRecord) :
    String × ActionType × String × Option (List String) × String × String :=
  (a.extension_id, a.action_type, a.api_name, a.args, a.page_url, a.arg_url)

/-! Basic facts about stripping, merging and the upsert operation. -/

@[simp]
theorem stripArgs_extension_id (a : ActionRecord) :
    (stripArgs a).extension_id = a.extension_id := by
  unfold stripArgs; split <;> rfl

@[simp]
theorem stripArgs_time (a : ActionRecord) : (stripArgs a).time = a.time := by
  unfold stripArgs; split <;> rfl

@[simp]
theorem stripArgs_action_type (a : ActionRecord) :
    (stripArgs a).action_type = a.action_type := by
  unfold stripArgs; split <;> rfl

@[simp]
theorem stripArgs_api_name (a : ActionRecord) :
    (stripArgs a).api_name = a.api_name := by
  unfold stripArgs; split <;> rfl

@[simp]
theorem stripArgs_page_url (a : ActionRecord) :
    (stripArgs a).page_url = a.page_url := by
  unfold stripArgs; split <;> rfl

@[simp]
theorem stripArgs_page_title (a : ActionRecord) :
    (stripArgs a).page_title = a.page_title := by
  unfold stripArgs; split <;> rfl

@[simp]
theorem stripArgs_arg_url (a : ActionRecord) : (stripArgs a).arg_url = a.arg_url := by
  unfold stripArgs; split <;> rfl

@[simp]
theorem stripArgs_count (a : ActionRecord) : (stripArgs a).count = a.count := by
  unfold stripArgs; split <;> rfl

@[simp]
theorem mergeInto_count (r a : ActionRecord) :
    (mergeInto r a).count = r.count + a.count := rfl

@[simp]
theorem mergeInto_time (r a : ActionRecord) :
    (mergeInto r a).time = max r.time a.time := rfl

theorem dayBucket_max (a b : Nat) (h : dayBucket a = dayBucket b) :
    dayBucket (max a b) = dayBucket a := by
  rcases max_choice a b with h1 | h1
  · rw [h1]
  · rw [h1, ← h]

theorem ext_of_mergeKey_eq {r q : ActionRecord} (h : mergeKey r = mergeKey q) :
    r.extension_id = q.extension_id := congrArg MergeKey.ext h

theorem day_of_mergeKey_eq {r q : ActionRecord} (h : mergeKey r = mergeKey q) :
    dayBucket r.time = dayBucket q.time := congrArg MergeKey.day h

theorem mergeKey_mergeInto (r a : ActionRecord) (h : mergeKey r = mergeKey a) :
    mergeKey (mergeInto r a) = mergeKey r := by
  have hday : dayBucket r.time = dayBucket a.time := day_of_mergeKey_eq h
  simp [mergeKey, mergeInto, MergeKey.mk.injEq]
  exact dayBucket_max _ _ hday

theorem upsertRow_length_le (l : List ActionRecord) (a : ActionRecord) :
    (upsertRow l a).length ≤ l.length + 1 := by
  induction l with
  | nil => simp [upsertRow]
  | cons r rest ih =>
    unfold upsertRow
    split
    · simp
    · simpa using Nat.succ_le_succ ih

theorem upsertRow_cons_of_key_eq (r : ActionRecord) (rest : List ActionRecord)
    (a : ActionRecord) (h : mergeKey r = mergeKey a) :
    upsertRow (r :: rest) a = mergeInto r a :: rest := by
  simp [upsertRow, h]

theorem upsertRow_cons_of_key_ne (r : ActionRecord) (rest : List ActionRecord)
    (a : ActionRecord) (h : ¬ mergeKey r = mergeKey a) :
    upsertRow (r :: rest) a = r :: upsertRow rest a := by
  simp [upsertRow, h]

theorem map_mergeKey_upsertRow (l : List ActionRecord) (a : ActionRecord) :
    (upsertRow l a).map mergeKey =
      if mergeKey a ∈ l.map mergeKey then l.map mergeKey
      else l.map mergeKey ++ [mergeKey a] := by
  induction l with
  | nil => simp [upsertRow]
  | cons r rest ih =>
    by_cases h : mergeKey r = mergeKey a
    · rw [upsertRow_cons_of_key_eq r rest a h]
      simp [mergeKey_mergeInto r a h, h]
    · rw [upsertRow_cons_of_key_ne r rest a h]
      by_cases hm : mergeKey a ∈ rest.map mergeKey
      · simp [ih, hm, Ne.symm h]
      · simp [ih, hm, Ne.symm h]

theorem nodup_map_mergeKey_upsertRow (l : List ActionRecord) (a : ActionRecord)
    (h : (l.map mergeKey).Nodup) : ((upsertRow l a).map mergeKey).Nodup := by
  rw [map_mergeKey_upsertRow]
  split
  · exact h
  · next hmem => simp [List.nodup_append, h, hmem]

theorem nodup_map_mergeKey_foldl (queued : List ActionRecord) :
    ∀ db : List ActionRecord, (db.map mergeKey).Nodup →
      ((queued.foldl upsertRow db).map mergeKey).Nodup := by
  induction queued with
  | nil => intro db h; simpa using h
  | cons q rest ih =>
    intro db h
    exact ih _ (nodup_map_mergeKey_upsertRow _ _ h)

/-! Facts about the descending-time ordering of read results. -/

theorem insertDesc_perm (r : ActionRecord) (l : List ActionRecord) :
    List.Perm (insertDesc r l) (r :: l) := by
  induction l with
  | nil => exact List.Perm.refl _
  | cons x xs ih =>
    unfold insertDesc
    split
    · exact List.Perm.refl _
    · exact (ih.cons x).trans (List.Perm.swap r x xs)

theorem sortByTimeDesc_perm (l : List ActionRecord) :
    List.Perm (sortByTimeDesc l) l := by
  induction l with
  | nil => exact List.Perm.refl _
  | cons r rest ih =>
    exact (insertDesc_perm r (sortByTimeDesc rest)).trans (ih.cons r)

theorem mem_sortByTimeDesc {a : ActionRecord} {l : List ActionRecord} :
    a ∈ sortByTimeDesc l ↔ a ∈ l :=
  (sortByTimeDesc_perm l).mem_iff

theorem length_sortByTimeDesc (l : List ActionRecord) :
    (sortByTimeDesc l).length = l.length :=
  (sortByTimeDesc_perm l).length_eq

/-! Submitting a run of records that all share one MergeKey keeps exactly
one buffered entry, accumulating the count and the maximum timestamp. -/

theorem foldl_processAction_same_key (now : Nat) (recs : List ActionRecord) :
    ∀ (s : PolicyState) (q : ActionRecord),
      s.db = [] → s.queued = [q] →
      (∀ r ∈ recs, mergeKey (stripArgs r) = mergeKey q) →
      (∀ r ∈ recs, r.count = 1) →
      ∃ q', (recs.foldl (processAction now) s).db = [] ∧
        (recs.foldl (processAction now) s).queued = [q'] ∧
        mergeKey q' = mergeKey q ∧
        q'.count = q.count + recs.length ∧
        q'.time = recs.foldl (fun m r => max m r.time) q.time := by
  induction recs with
  | nil =>
    intro s q hdb hq _ _
    exact ⟨q, hdb, hq, rfl, by simp, by simp⟩
  | cons a rest ih =>
    intro s q hdb hq hkey hcount
    have hka : mergeKey (stripArgs a) = mergeKey q := hkey a (by simp)
    have hstep : processAction now s a =
        { s with queued := [mergeInto q (stripArgs a)] } := by
      simp only [processAction, hq]
      rw [upsertRow_cons_of_key_eq q [] (stripArgs a) hka.symm]
      rw [if_neg (by norm_num [kSizeThresholdForFlush])]
    have hkq2 : mergeKey (mergeInto q (stripArgs a)) = mergeKey q :=
      mergeKey_mergeInto q (stripArgs a) hka.symm
    rw [List.foldl_cons, hstep]
    obtain ⟨q', h1, h2, h3, h4, h5⟩ :=
      ih { s with queued := [mergeInto q (stripArgs a)] }
        (mergeInto q (stripArgs a)) hdb rfl
        (fun r hr => (hkey r (by simp [hr])).trans hkq2.symm)
        (fun r hr => hcount r (by simp [hr]))
    refine ⟨q', h1, h2, h3.trans hkq2, ?_, ?_⟩
    · have hac : a.count = 1 := hcount a (by simp)
      simp only [mergeInto_count, stripArgs_count, hac] at h4
      simp [h4]
      omega
    · simpa [mergeInto_time, stripArgs_time] using h5

/-- C1: for every sequence of submissions whose records each carry count
one and all share a single MergeKey (which forces same-day timestamps),
in any submission order, a subsequent `readData` for that day delivers
exactly one merged row whose count equals the number of submissions and
whose time equals the maximum submitted timestamp. -/
theorem c1_same_key_submissions_merge (now : Nat) (r0 : ActionRecord)
    (rest : List ActionRecord) (d : Nat)
    (hcount : ∀ r ∈ r0 :: rest, r.count = 1)
    (hkey : ∀ r ∈ r0 :: rest, mergeKey (stripArgs r) = mergeKey (stripArgs r0))
    (hday : dayBucket now - d = dayBucket r0.time) :
    ∃ row,
      readData ((r0 :: rest).foldl (processAction now) initState) now
        r0.extension_id d = [row] ∧
      row.count = (r0 :: rest).length ∧
      row.time = maxTimeOf (r0 :: rest) := by
  have hstep : processAction now initState r0 =
      { initState with queued := [stripArgs r0] } := by
    simp only [processAction, initState]
    rw [if_neg (by norm_num [kSizeThresholdForFlush, upsertRow])]
    simp [upsertRow]
  rw [List.foldl_cons, hstep]
  obtain ⟨q', h1, h2, h3, h4, h5⟩ :=
    foldl_processAction_same_key now rest
      { initState with queued := [stripArgs r0] } (stripArgs r0) rfl rfl
      (fun r hr => hkey r (by simp [hr]))
      (fun r hr => hcount r (by simp [hr]))
  have hext : q'.extension_id = r0.extension_id := by
    simpa using ext_of_mergeKey_eq h3
  have hdq : dayBucket q'.time = dayBucket now - d := by
    have := day_of_mergeKey_eq h3
    simp only [stripArgs_time] at this
    rw [this, hday]
  have hview :
      mergedView (rest.foldl (processAction now)
        { initState with queued := [stripArgs r0] }) = [q'] := by
    simp [mergedView, h1, h2, upsertRow]
  refine ⟨q', ?_, ?_, ?_⟩
  · simp [readData, hview, List.filter, hext, hdq, sortByTimeDesc, insertDesc]
  · have hc0 : r0.count = 1 := hcount r0 (by simp)
    simp only [stripArgs_count, hc0] at h4
    simp [h4]
    omega
  · simp only [stripArgs_time] at h5
    rw [h5, maxTimeOf]
    simp [Nat.zero_max]

theorem filter_pair_fst (p : ActionRecord → Bool) (a b : ActionRecord)
    (ha : p a = true) (hb : p b = false) : List.filter p [a, b] = [a] := by
  simp [List.filter, ha, hb]

theorem filter_pair_snd (p : ActionRecord → Bool) (a b : ActionRecord)
    (ha : p a = false) (hb : p b = true) : List.filter p [a, b] = [b] := by
  simp [List.filter, ha, hb]

/-- Concrete record shape used by several witnesses below: an API call
by extension `punky` to `brewster` at time `t` with count one. -/
def brewsterAt (t : Nat) : ActionRecord :=
  { extension_id := "punky", time := t, action_type := ActionType.apiCall,
    api_name := "brewster", args := none, page_url := "", page_title := "",
    arg_url := "", count := 1 }

/-- Witness for C1 at a concrete input: three same-key submissions at
times 97600, 98800 and 98200 (out of chronological order), read back on
day zero of now = 100000 as one row of count three and time 98800. -/
theorem c1_same_key_submissions_merge_witness :
    ∃ row,
      readData ([brewsterAt 97600, brewsterAt 98800, brewsterAt 98200].foldl
        (processAction 100000) initState) 100000 "punky" 0 = [row] ∧
      row.count = 3 ∧
      row.time = 98800 :=
  c1_same_key_submissions_merge 100000 (brewsterAt 97600)
    [brewsterAt 98800, brewsterAt 98200] 0
    (by decide) (by decide) (by decide)

/-- C3: two submitted records whose timestamps fall in different day
buckets but whose other key fields agree never merge: reading each day
back delivers a separate row carrying that record's own count and time. -/
theorem c3_no_merge_across_days (now : Nat) (r1 r2 : ActionRecord) (d1 d2 : Nat)
    (hc1 : r1.count = 1) (hc2 : r2.count = 1)
    (hkey : keyNoDay (stripArgs r1) = keyNoDay (stripArgs r2))
    (hday : dayBucket r1.time ≠ dayBucket r2.time)
    (hd1 : dayBucket now - d1 = dayBucket r1.time)
    (hd2 : dayBucket now - d2 = dayBucket r2.time) :
    ∃ row1 row2,
      readData ([r1, r2].foldl (processAction now) initState) now
        r1.extension_id d1 = [row1] ∧
      readData ([r1, r2].foldl (processAction now) initState) now
        r1.extension_id d2 = [row2] ∧
      row1 ≠ row2 ∧
      row1.count = 1 ∧ row1.time = r1.time ∧
      row2.count = 1 ∧ row2.time = r2.time := by
  have hkne : mergeKey (stripArgs r1) ≠ mergeKey (stripArgs r2) := by
    intro h
    exact hday (by simpa using day_of_mergeKey_eq h)
  have hext : r2.extension_id = r1.extension_id := by
    have := congrArg Prod.fst hkey
    simpa [keyNoDay] using this.symm
  have hstep1 : processAction now initState r1 =
      { initState with queued := [stripArgs r1] } := by
    simp only [processAction, initState]
    rw [if_neg (by norm_num [kSizeThresholdForFlush, upsertRow])]
    simp [upsertRow]
  have hstep2 : processAction now { initState with queued := [stripArgs r1] } r2 =
      { initState with queued := [stripArgs r1, stripArgs r2] } := by
    simp only [processAction]
    rw [upsertRow_cons_of_key_ne _ _ _ hkne]
    rw [if_neg (by norm_num [kSizeThresholdForFlush, upsertRow])]
    simp [upsertRow]
  have hview :
      mergedView ([r1, r2].foldl (processAction now) initState) =
        [stripArgs r1, stripArgs r2] := by
    rw [List.foldl_cons, hstep1, List.foldl_cons, hstep2, List.foldl_nil]
    simp only [mergedView]
    show upsertRow (upsertRow [] (stripArgs r1)) (stripArgs r2) = _
    rw [show upsertRow [] (stripArgs r1) = [stripArgs r1] from rfl]
    rw [upsertRow_cons_of_key_ne _ _ _ hkne]
    rfl
  refine ⟨stripArgs r1, stripArgs r2, ?_, ?_, ?_, ?_, ?_, ?_, ?_⟩
  · simp only [readData, hview]
    rw [filter_pair_fst]
    · rfl
    · simp [hd1]
    · simp only [decide_eq_false_iff_not, decide_eq_true_eq, stripArgs_time,
        stripArgs_extension_id]
      intro hcon
      rw [hd1] at hcon
      exact hday hcon.2.symm
  · simp only [readData, hview]
    rw [filter_pair_snd]
    · rfl
    · simp only [decide_eq_false_iff_not, decide_eq_true_eq, stripArgs_time,
        stripArgs_extension_id]
      intro hcon
      rw [hd2] at hcon
      exact hday hcon.2
    · simp [hext, hd2]
  · intro h
    exact hday (by simpa using congrArg (fun r => dayBucket r.time) h)
  · simp [hc1]
  · simp
  · simp [hc2]
  · simp

/-- Witness for C3 at a concrete input: the same key submitted at times
97600 (day bucket 1) and 10000 (day bucket 0) with now = 100000 reads
back as two separate rows on day offsets 0 and 1. -/
theorem c3_no_merge_across_days_witness :
    ∃ row1 row2,
      readData ([brewsterAt 97600, brewsterAt 10000].foldl
        (processAction 100000) initState) 100000 "punky" 0 = [row1] ∧
      readData ([brewsterAt 97600, brewsterAt 10000].foldl
        (processAction 100000) initState) 100000 "punky" 1 = [row2] ∧
      row1 ≠ row2 ∧
      row1.count = 1 ∧ row1.time = 97600 ∧
      row2.count = 1 ∧ row2.time = 10000 :=
  c3_no_merge_across_days 100000 (brewsterAt 97600) (brewsterAt 10000) 0 1
    (by decide) (by decide) (by decide) (by decide) (by decide) (by decide)

/-! The flush-on-full admission control of the merge buffer. -/

theorem queued_sweep (now : Nat) (s : PolicyState) :
    (sweep now s).queued = s.queued := rfl

theorem queued_maintain (now : Nat) (s : PolicyState) :
    (maintain now s).queued = s.queued := by
  unfold maintain
  split
  · rfl
  · rfl

theorem queued_flushOnly (s : PolicyState) : (flushOnly s).queued = [] := rfl

theorem processAction_queued_le (now : Nat) (s : PolicyState) (a : ActionRecord) :
    (processAction now s a).queued.length ≤ kSizeThresholdForFlush := by
  simp only [processAction]
  split
  · rw [queued_maintain, queued_flushOnly]
    simp [kSizeThresholdForFlush]
  · next hle => simpa using Nat.not_lt.mp hle

theorem foldl_queued_le (now : Nat) (recs : List ActionRecord) :
    ∀ s : PolicyState, s.queued.length ≤ kSizeThresholdForFlush →
      (recs.foldl (processAction now) s).queued.length ≤ kSizeThresholdForFlush := by
  induction recs with
  | nil => intro s hs; simpa using hs
  | cons a rest ih => intro _ _; exact ih _ (processAction_queued_le now _ a)

/-- C4: starting from the initial state, after any sequence of submits the
number of buffered entries never exceeds the threshold of 200; a further
submit that would push the buffer past the threshold hands the whole
buffer over as one flush task (the batch upsert `flushOnly`, which also
lets the janitor run) and leaves the buffer cleared, while a submit that
stays within the threshold only grows the buffer and leaves the store
untouched. -/
theorem c4_buffer_bounded_and_flushed (now : Nat) (recs : List ActionRecord)
    (a : ActionRecord) :
    (recs.foldl (processAction now) initState).queued.length ≤ kSizeThresholdForFlush ∧
    (kSizeThresholdForFlush <
        (upsertRow (recs.foldl (processAction now) initState).queued
          (stripArgs a)).length →
      processAction now (recs.foldl (processAction now) initState) a =
        maintain now (flushOnly
          { recs.foldl (processAction now) initState with
            queued := upsertRow (recs.foldl (processAction now) initState).queued
              (stripArgs a) }) ∧
      (processAction now (recs.foldl (processAction now) initState) a).queued = []) ∧
    (¬ kSizeThresholdForFlush <
        (upsertRow (recs.foldl (processAction now) initState).queued
          (stripArgs a)).length →
      (processAction now (recs.foldl (processAction now) initState) a).queued =
        upsertRow (recs.foldl (processAction now) initState).queued (stripArgs a) ∧
      (processAction now (recs.foldl (processAction now) initState) a).db =
        (recs.foldl (processAction now) initState).db) := by
  refine ⟨foldl_queued_le now recs initState (by simp [initState]), ?_, ?_⟩
  · intro h
    constructor
    · simp only [processAction, if_pos h]
    · simp only [processAction, if_pos h, queued_maintain, queued_flushOnly]
  · intro h
    constructor
    · simp only [processAction, if_neg h]
    · simp only [processAction, if_neg h]

/-- Witness for C4 at a concrete input: no prior submissions, one further
submission; the buffer stays within the threshold and the store is left
untouched. -/
theorem c4_buffer_bounded_and_flushed_witness :
    (([] : List ActionRecord).foldl (processAction 0) initState).queued.length ≤
      kSizeThresholdForFlush ∧
    (kSizeThresholdForFlush <
        (upsertRow (([] : List ActionRecord).foldl (processAction 0) initState).queued
          (stripArgs (brewsterAt 0))).length →
      processAction 0 (([] : List ActionRecord).foldl (processAction 0) initState)
          (brewsterAt 0) =
        maintain 0 (flushOnly
          { ([] : List ActionRecord).foldl (processAction 0) initState with
            queued := upsertRow
              (([] : List ActionRecord).foldl (processAction 0) initState).queued
              (stripArgs (brewsterAt 0)) }) ∧
      (processAction 0 (([] : List ActionRecord).foldl (processAction 0) initState)
        (brewsterAt 0)).queued = []) ∧
    (¬ kSizeThresholdForFlush <
        (upsertRow (([] : List ActionRecord).foldl (processAction 0) initState).queued
          (stripArgs (brewsterAt 0))).length →
      (processAction 0 (([] : List ActionRecord).foldl (processAction 0) initState)
        (brewsterAt 0)).queued =
        upsertRow (([] : List ActionRecord).foldl (processAction 0) initState).queued
          (stripArgs (brewsterAt 0)) ∧
      (processAction 0 (([] : List ActionRecord).foldl (processAction 0) initState)
        (brewsterAt 0)).db =
        (([] : List ActionRecord).foldl (processAction 0) initState).db) :=
  c4_buffer_bounded_and_flushed 0 [] (brewsterAt 0)

/-! Field-level facts about the URL scrub. -/

@[simp]
theorem scrubPage_extension_id (urls : List String) (r : ActionRecord) :
    (scrubPage urls r).extension_id = r.extension_id := by
  unfold scrubPage; split <;> rfl

@[simp]
theorem scrubPage_time (urls : List String) (r : ActionRecord) :
    (scrubPage urls r).time = r.time := by
  unfold scrubPage; split <;> rfl

@[simp]
theorem scrubPage_action_type (urls : List String) (r : ActionRecord) :
    (scrubPage urls r).action_type = r.action_type := by
  unfold scrubPage; split <;> rfl

@[simp]
theorem scrubPage_api_name (urls : List String) (r : ActionRecord) :
    (scrubPage urls r).api_name = r.api_name := by
  unfold scrubPage; split <;> rfl

@[simp]
theorem scrubPage_args (urls : List String) (r : ActionRecord) :
    (scrubPage urls r).args = r.args := by
  unfold scrubPage; split <;> rfl

@[simp]
theorem scrubPage_arg_url (urls : List String) (r : ActionRecord) :
    (scrubPage urls r).arg_url = r.arg_url := by
  unfold scrubPage; split <;> rfl

@[simp]
theorem scrubPage_count (urls : List String) (r : ActionRecord) :
    (scrubPage urls r).count = r.count := by
  unfold scrubPage; split <;> rfl

@[simp]
theorem scrubArg_extension_id (urls : List String) (r : ActionRecord) :
    (scrubArg urls r).extension_id = r.extension_id := by
  unfold scrubArg; split <;> rfl

@[simp]
theorem scrubArg_time (urls : List String) (r : ActionRecord) :
    (scrubArg urls r).time = r.time := by
  unfold scrubArg; split <;> rfl

@[simp]
theorem scrubArg_action_type (urls : List String) (r : ActionRecord) :
    (scrubArg urls r).action_type = r.action_type := by
  unfold scrubArg; split <;> rfl

@[simp]
theorem scrubArg_api_name (urls : List String) (r : ActionRecord) :
    (scrubArg urls r).api_name = r.api_name := by
  unfold scrubArg; split <;> rfl

@[simp]
theorem scrubArg_args (urls : List String) (r : ActionRecord) :
    (scrubArg urls r).args = r.args := by
  unfold scrubArg; split <;> rfl

@[simp]
theorem scrubArg_page_url (urls : List String) (r : ActionRecord) :
    (scrubArg urls r).page_url = r.page_url := by
  unfold scrubArg; split <;> rfl

@[simp]
theorem scrubArg_page_title (urls : List String) (r : ActionRecord) :
    (scrubArg urls r).page_title = r.page_title := by
  unfold scrubArg; split <;> rfl

@[simp]
theorem scrubArg_count (urls : List String) (r : ActionRecord) :
    (scrubArg urls r).count = r.count := by
  unfold scrubArg; split <;> rfl

@[simp]
theorem scrubRow_extension_id (urls : List String) (r : ActionRecord) :
    (scrubRow urls r).extension_id = r.extension_id := by simp [scrubRow]

@[simp]
theorem scrubRow_time (urls : List String) (r : ActionRecord) :
    (scrubRow urls r).time = r.time := by simp [scrubRow]

@[simp]
theorem scrubRow_action_type (urls : List String) (r : ActionRecord) :
    (scrubRow urls r).action_type = r.action_type := by simp [scrubRow]

@[simp]
theorem scrubRow_api_name (urls : List String) (r : ActionRecord) :
    (scrubRow urls r).api_name = r.api_name := by simp [scrubRow]

@[simp]
theorem scrubRow_args (urls : List String) (r : ActionRecord) :
    (scrubRow urls r).args = r.args := by simp [scrubRow]

@[simp]
theorem scrubRow_count (urls : List String) (r : ActionRecord) :
    (scrubRow urls r).count = r.count := by simp [scrubRow]

theorem urlMatches_nil (u : String) : urlMatches [] u = true := by
  simp [urlMatches]

theorem urlMatches_of_ne_nil {urls : List String} (h : urls ≠ []) (u : String) :
    urlMatches urls u = decide (u ∈ urls) := by
  cases urls with
  | nil => exact absurd rfl h
  | cons x xs => simp [urlMatches]

theorem scrubRow_nil_fields (r : ActionRecord) :
    (scrubRow [] r).page_url = "" ∧ (scrubRow [] r).page_title = "" ∧
      (scrubRow [] r).arg_url = "" := by
  simp [scrubRow, scrubPage, scrubArg, urlMatches_nil]

theorem scrubRow_page_pos {urls : List String} {r : ActionRecord}
    (h : r.page_url ∈ urls) :
    (scrubRow urls r).page_url = "" ∧ (scrubRow urls r).page_title = "" := by
  have hm : urlMatches urls r.page_url = true := by
    simp [urlMatches, h]
  simp [scrubRow, scrubPage, hm]

theorem scrubRow_page_neg {urls : List String} {r : ActionRecord}
    (hne : urls ≠ []) (h : r.page_url ∉ urls) :
    (scrubRow urls r).page_url = r.page_url ∧
      (scrubRow urls r).page_title = r.page_title := by
  have hm : urlMatches urls r.page_url = false := by
    rw [urlMatches_of_ne_nil hne]
    simpa using h
  simp [scrubRow, scrubPage, hm]

theorem scrubRow_arg_pos {urls : List String} {r : ActionRecord}
    (h : r.arg_url ∈ urls) : (scrubRow urls r).arg_url = "" := by
  have hm : urlMatches urls r.arg_url = true := by
    simp [urlMatches, h]
  simp [scrubRow, scrubArg, hm]

theorem scrubRow_arg_neg {urls : List String} {r : ActionRecord}
    (hne : urls ≠ []) (h : r.arg_url ∉ urls) :
    (scrubRow urls r).arg_url = r.arg_url := by
  have hm : urlMatches urls r.arg_url = false := by
    rw [urlMatches_of_ne_nil hne]
    simpa using h
  simp [scrubRow, scrubArg, hm]

/-! Structural facts about `removeURLs` and the combined view. -/

theorem flushOnly_db (s : PolicyState) : (flushOnly s).db = mergedView s := rfl

theorem mergedView_flushOnly (s : PolicyState) :
    mergedView (flushOnly s) = mergedView s := rfl

theorem removeURLs_queued (now : Nat) (urls : List String) (s : PolicyState) :
    (removeURLs now urls s).queued = [] := rfl

theorem removeURLs_db (now : Nat) (urls : List String) (s : PolicyState) :
    (removeURLs now urls s).db = (mergedView s).map (scrubRow urls) := rfl

theorem mergedView_removeURLs (now : Nat) (urls : List String) (s : PolicyState) :
    mergedView (removeURLs now urls s) = (mergedView s).map (scrubRow urls) := rfl

theorem mem_readData_subset {s : PolicyState} {now : Nat} {ext : String} {d : Nat}
    {r : ActionRecord} (h : r ∈ readData s now ext d) : r ∈ mergedView s := by
  have h1 := mem_sortByTimeDesc.mp h
  exact (List.mem_filter.mp h1).1

theorem filter_map_comm (f : ActionRecord → ActionRecord) (p : ActionRecord → Bool)
    (l : List ActionRecord) :
    (l.map f).filter p = (l.filter (fun a => p (f a))).map f := by
  induction l with
  | nil => rfl
  | cons a t ih =>
    by_cases h : p (f a) = true
    · simp [List.filter_cons, h, ih]
    · simp [List.filter_cons, h, ih]

/-- C6: `removeURLs` with an empty URL list (match-everything semantics)
clears the page URL, the page title and the argument URL on every row,
the buffered entries having been folded into the store first; afterwards
every row read back carries all three URL-bearing fields empty. -/
theorem c6_remove_all_urls (now now2 : Nat) (s : PolicyState) (r : ActionRecord)
    (ext : String) (d : Nat) :
    (removeURLs now [] s).queued = [] ∧
    (r ∈ (removeURLs now [] s).db →
      r.page_url = "" ∧ r.page_title = "" ∧ r.arg_url = "") ∧
    (r ∈ readData (removeURLs now [] s) now2 ext d →
      r.page_url = "" ∧ r.page_title = "" ∧ r.arg_url = "") := by
  have hdb : ∀ r' ∈ (removeURLs now [] s).db,
      r'.page_url = "" ∧ r'.page_title = "" ∧ r'.arg_url = "" := by
    intro r' hr'
    rw [removeURLs_db] at hr'
    obtain ⟨r0, -, rfl⟩ := List.mem_map.mp hr'
    exact scrubRow_nil_fields r0
  refine ⟨rfl, fun h => hdb r h, fun h => ?_⟩
  have h1 := mem_readData_subset h
  rw [mergedView_removeURLs] at h1
  exact hdb r (by rw [removeURLs_db]; exact h1)

/-- Concrete DOM-access record shape used by the scrub witnesses. -/
def domAt (t : Nat) (pu pt au : String) : ActionRecord :=
  { extension_id := "punky", time := t, action_type := ActionType.domAccess,
    api_name := "lets", args := some ["vamoose"], page_url := pu,
    page_title := pt, arg_url := au, count := 1 }

/-- Concrete pre-scrub state for the C6 witness, mirroring the
RemoveAllURLs test: two DOM accesses with different page URLs. -/
def c6Inner : PolicyState :=
  [domAt 475200 "http://www.google.com/" "Google" "http://www.args-url.com/",
   domAt 475201 "http://www.google2.com/" "Google" ""].foldl
    (processAction 475201) initState

/-- Fully scrubbed row expected in the C6 witness read-back. -/
def c6Row : ActionRecord :=
  { extension_id := "punky", time := 475201, action_type := ActionType.domAccess,
    api_name := "lets", args := some ["vamoose"], page_url := "",
    page_title := "", arg_url := "", count := 1 }

/-- Witness for C6 at a concrete input: after scrubbing every URL, a row
read back for the day has all URL-bearing fields empty. -/
theorem c6_remove_all_urls_witness :
    c6Row ∈ readData (removeURLs 475201 [] c6Inner) 475201 "punky" 0 ∧
    (c6Row.page_url = "" ∧ c6Row.page_title = "" ∧ c6Row.arg_url = "") :=
  ⟨by decide,
   (c6_remove_all_urls 475201 475201 c6Inner c6Row "punky" 0).2.2 (by decide)⟩

/-- C7: for `removeURLs` with a non-empty URL list the store becomes the
row-wise scrub of the combined view (the row set, order and length are
preserved), and on every row independently: the page URL and the page
title are cleared exactly when the row's page URL is in the list, the
argument URL is cleared exactly when the row's argument URL is in the
list, and the extension id, action type, API name, arguments, time and
count of the row are unchanged. -/
theorem c7_remove_specific_urls (now : Nat) (urls : List String) (s : PolicyState)
    (r : ActionRecord) (hne : urls ≠ []) :
    ((removeURLs now urls s).db = (mergedView s).map (scrubRow urls) ∧
      (removeURLs now urls s).db.length = (mergedView s).length) ∧
    (r.page_url ∈ urls →
      (scrubRow urls r).page_url = "" ∧ (scrubRow urls r).page_title = "") ∧
    (r.page_url ∉ urls →
      (scrubRow urls r).page_url = r.page_url ∧
      (scrubRow urls r).page_title = r.page_title) ∧
    (r.arg_url ∈ urls → (scrubRow urls r).arg_url = "") ∧
    (r.arg_url ∉ urls → (scrubRow urls r).arg_url = r.arg_url) ∧
    ((scrubRow urls r).extension_id = r.extension_id ∧
      (scrubRow urls r).action_type = r.action_type ∧
      (scrubRow urls r).api_name = r.api_name ∧
      (scrubRow urls r).args = r.args ∧
      (scrubRow urls r).time = r.time ∧
      (scrubRow urls r).count = r.count) := by
  refine ⟨⟨removeURLs_db now urls s, by simp [removeURLs_db]⟩, ?_, ?_, ?_, ?_, ?_⟩
  · exact fun h => scrubRow_page_pos h
  · exact fun h => scrubRow_page_neg hne h
  · exact fun h => scrubRow_arg_pos h
  · exact fun h => scrubRow_arg_neg hne h
  · exact ⟨by simp, by simp, by simp, by simp, by simp, by simp⟩

/-- URL list of the C7 witness, mirroring the RemoveSpecificURLs test. -/
def c7Urls : List String :=
  ["http://www.google1.com/", "http://www.google2.com/",
   "http://www.url-not-in-db.com/"]

/-- Concrete row of the C7 witness: its page URL is in the list, its
argument URL is not. -/
def c7Row : ActionRecord :=
  domAt 475200 "http://www.google1.com/" "Google" "http://www.google.com/"

/-- Witness for C7 at a concrete input: the page URL and title are
cleared, the argument URL and the count survive. -/
theorem c7_remove_specific_urls_witness :
    c7Row.page_url ∈ c7Urls ∧
    c7Row.arg_url ∉ c7Urls ∧
    ((scrubRow c7Urls c7Row).page_url = "" ∧
      (scrubRow c7Urls c7Row).page_title = "") ∧
    (scrubRow c7Urls c7Row).arg_url = c7Row.arg_url ∧
    (scrubRow c7Urls c7Row).count = c7Row.count :=
  ⟨by decide, by decide,
   (c7_remove_specific_urls 0 c7Urls initState c7Row (by decide)).2.1 (by decide),
   (c7_remove_specific_urls 0 c7Urls initState c7Row (by decide)).2.2.2.2.1 (by decide),
   (c7_remove_specific_urls 0 c7Urls initState c7Row (by decide)).2.2.2.2.2.2.2.2.2.2⟩

/-- C9: rows that were distinct before a `removeURLs` call remain
distinct rows afterwards, even when the scrub makes their visible fields
identical: the combined view is the positionwise scrub of the old view,
so no counts are combined and no re-merge occurs, and a read returns as
many rows as it would have just after the flush. -/
theorem c9_no_remerge_after_scrub (now now2 : Nat) (urls : List String)
    (s : PolicyState) (ext : String) (d : Nat) :
    mergedView (removeURLs now urls s) = (mergedView s).map (scrubRow urls) ∧
    (mergedView (removeURLs now urls s)).length = (mergedView s).length ∧
    (mergedView (removeURLs now urls s)).map ActionRecord.count =
      (mergedView s).map ActionRecord.count ∧
    (readData (removeURLs now urls s) now2 ext d).length =
      (readData (flushOnly s) now2 ext d).length := by
  refine ⟨mergedView_removeURLs now urls s, by simp [mergedView_removeURLs], ?_, ?_⟩
  · rw [mergedView_removeURLs, List.map_map]
    simp [Function.comp]
  · simp only [readData, length_sortByTimeDesc, mergedView_removeURLs,
      mergedView_flushOnly]
    rw [filter_map_comm, List.length_map]
    simp only [scrubRow_extension_id, scrubRow_time]

/-! The retention janitor and the dictionary garbage collection. -/

theorem mergedView_of_queued_nil {s : PolicyState} (h : s.queued = []) :
    mergedView s = s.db := by
  simp [mergedView, h]

/-- Scenario operator for C5: lower the retention window to two days,
reset the last sweep time so the next maintain task fires, and run a
maintain task at time `now`. -/
def retentionScenario (now : Nat) (s : PolicyState) : PolicyState :=
  maintain now (forceCleaningNow (set_retention (2 * daySecs) s))

/-- C5: after lowering the retention window to two days and forcing a
sweep (with the buffer flushed), every surviving persisted row has a day
bucket at least the bucket of now minus the retention window (so rows
older than that are gone from every read), every dictionary entry no
longer referenced by a surviving row is deleted, and every dictionary
entry still referenced by a surviving row remains. -/
theorem c5_retention_sweep (now now2 : Nat) (s : PolicyState)
    (hq : s.queued = []) (hdue : cleaningIntervalSecs < now) :
    (∀ r ∈ (retentionScenario now s).db,
      dayBucket (now - 2 * daySecs) ≤ dayBucket r.time) ∧
    (∀ ext d r, r ∈ readData (retentionScenario now s) now2 ext d →
      dayBucket (now - 2 * daySecs) ≤ dayBucket r.time) ∧
    (∀ str ∈ s.strings, str ∈ referencedStrings (retentionScenario now s).db →
      str ∈ (retentionScenario now s).strings) ∧
    (∀ str, str ∉ referencedStrings (retentionScenario now s).db →
      str ∉ (retentionScenario now s).strings) ∧
    (∀ u ∈ s.urls, u ∈ referencedUrls (retentionScenario now s).db →
      u ∈ (retentionScenario now s).urls) ∧
    (∀ u, u ∉ referencedUrls (retentionScenario now s).db →
      u ∉ (retentionScenario now s).urls) := by
  have hif : cleaningIntervalSecs <
      now - (forceCleaningNow (set_retention (2 * daySecs) s)).last_cleaning_time := by
    simpa [forceCleaningNow, set_retention] using hdue
  have hsc : retentionScenario now s =
      sweep now (forceCleaningNow (set_retention (2 * daySecs) s)) := by
    unfold retentionScenario maintain
    rw [if_pos hif]
  have hdb : (retentionScenario now s).db =
      s.db.filter (fun r => decide (dayBucket (now - 2 * daySecs) ≤ dayBucket r.time)) := by
    rw [hsc]
    simp [sweep, forceCleaningNow, set_retention]
  have hqs : (retentionScenario now s).queued = [] := by
    rw [hsc, queued_sweep]
    simpa [forceCleaningNow, set_retention] using hq
  have hstr : (retentionScenario now s).strings =
      s.strings.filter (fun str => decide (str ∈ referencedStrings
        ((retentionScenario now s).db))) := by
    rw [hdb, hsc]
    simp [sweep, forceCleaningNow, set_retention]
  have hurl : (retentionScenario now s).urls =
      s.urls.filter (fun u => decide (u ∈ referencedUrls
        ((retentionScenario now s).db))) := by
    rw [hdb, hsc]
    simp [sweep, forceCleaningNow, set_retention]
  have hrows : ∀ r ∈ (retentionScenario now s).db,
      dayBucket (now - 2 * daySecs) ≤ dayBucket r.time := by
    intro r hr
    rw [hdb] at hr
    have := (List.mem_filter.mp hr).2
    simpa using this
  refine ⟨hrows, ?_, ?_, ?_, ?_, ?_⟩
  · intro ext d r hr
    have h1 := mem_readData_subset hr
    rw [mergedView_of_queued_nil hqs] at h1
    exact hrows r h1
  · intro str hs href
    rw [hstr]
    exact List.mem_filter.mpr ⟨hs, by simpa using href⟩
  · intro str href hmem
    rw [hstr] at hmem
    exact href (by simpa using (List.mem_filter.mp hmem).2)
  · intro u hs href
    rw [hurl]
    exact List.mem_filter.mpr ⟨hs, by simpa using href⟩
  · intro u href hmem
    rw [hurl] at hmem
    exact href (by simpa using (List.mem_filter.mp hmem).2)

/-- Old persisted row of the C5 witness: seven days old, referencing the
strings `punky` and `brewster` and one URL. -/
def c5Old : ActionRecord :=
  { extension_id := "punky", time := 302400, action_type := ActionType.apiCall,
    api_name := "brewster", args := none, page_url := "http://www.google.com/",
    page_title := "", arg_url := "", count := 1 }

/-- Fresh persisted row of the C5 witness, referencing `punky` and
`tabs.create` and no URL. -/
def c5New : ActionRecord :=
  { extension_id := "punky", time := 906600, action_type := ActionType.apiCall,
    api_name := "tabs.create", args := none, page_url := "", page_title := "",
    arg_url := "", count := 1 }

/-- Concrete flushed state of the C5 witness, mirroring the
StringTableCleaning test. -/
def c5State : PolicyState :=
  { queued := [], db := [c5Old, c5New],
    strings := ["punky", "brewster", "tabs.create"],
    urls := ["http://www.google.com/"],
    retention_secs := 14 * daySecs, last_cleaning_time := 0 }

/-- Witness for C5 at a concrete input: after the forced sweep the string
still referenced by the surviving row remains, the string referenced only
by the expired row is gone, the URL referenced only by the expired row is
gone, and no surviving row is older than the retention cutoff. -/
theorem c5_retention_sweep_witness :
    "punky" ∈ (retentionScenario 907200 c5State).strings ∧
    "brewster" ∉ (retentionScenario 907200 c5State).strings ∧
    "http://www.google.com/" ∉ (retentionScenario 907200 c5State).urls ∧
    ∀ r ∈ (retentionScenario 907200 c5State).db,
      dayBucket (907200 - 2 * daySecs) ≤ dayBucket r.time :=
  ⟨(c5_retention_sweep 907200 0 c5State rfl (by decide)).2.2.1 "punky"
      (by decide) (by decide),
   (c5_retention_sweep 907200 0 c5State rfl (by decide)).2.2.2.1 "brewster"
      (by decide),
   (c5_retention_sweep 907200 0 c5State rfl (by decide)).2.2.2.2.2
      "http://www.google.com/" (by decide),
   (c5_retention_sweep 907200 0 c5State rfl (by decide)).1⟩

/-- C10: `readData` is a total query: for an extension and day bucket
with no matching surviving row in the combined view it delivers the empty
sequence to the caller rather than failing or withholding a result. -/
theorem c10_empty_read (s : PolicyState) (now : Nat) (ext : String) (d : Nat)
    (h : ∀ r ∈ mergedView s,
      ¬ (r.extension_id = ext ∧ dayBucket r.time = dayBucket now - d)) :
    readData s now ext d = [] := by
  have hf : ((mergedView s).filter
      (fun r => decide (r.extension_id = ext ∧
        dayBucket r.time = dayBucket now - d))) = [] := by
    rw [List.filter_eq_nil_iff]
    intro a ha
    simpa using h a ha
  simp only [readData, hf]
  rfl

/-- Concrete state of the C10 witness: two three-day-old submissions are
flushed and then expired by a forced sweep under a two-day retention
window, leaving their day bucket empty. -/
def c10State : PolicyState :=
  forceFlush 475200 (forceCleaningNow (set_retention (2 * daySecs)
    ([brewsterAt 214800, brewsterAt 215000].foldl (processAction 475200) initState)))

/-- Witness for C10 at a concrete input: reading the freshly expired day
bucket delivers the empty sequence. -/
theorem c10_empty_read_witness : readData c10State 475200 "punky" 3 = [] :=
  c10_empty_read c10State 475200 "punky" 3 (by decide)

/-! Every state reachable from the initial state keeps pairwise distinct
MergeKeys in the store and in the buffer. -/

def GoodState (s : PolicyState) : Prop :=
  (s.db.map mergeKey).Nodup ∧ (s.queued.map mergeKey).Nodup

theorem goodState_initState : GoodState initState :=
  ⟨by simp [initState], by simp [initState]⟩

theorem goodState_flushOnly {s : PolicyState} (h : GoodState s) :
    GoodState (flushOnly s) :=
  ⟨nodup_map_mergeKey_foldl s.queued s.db h.1, by simp [flushOnly]⟩

theorem goodState_sweep (now : Nat) {s : PolicyState} (h : GoodState s) :
    GoodState (sweep now s) := by
  refine ⟨?_, h.2⟩
  exact h.1.sublist ((List.filter_sublist s.db).map mergeKey)

theorem goodState_maintain (now : Nat) {s : PolicyState} (h : GoodState s) :
    GoodState (maintain now s) := by
  unfold maintain
  split
  · exact goodState_sweep now h
  · exact h

theorem goodState_processAction (now : Nat) {s : PolicyState} (a : ActionRecord)
    (h : GoodState s) : GoodState (processAction now s a) := by
  simp only [processAction]
  split
  · exact goodState_maintain now
      (goodState_flushOnly ⟨h.1, nodup_map_mergeKey_upsertRow _ _ h.2⟩)
  · exact ⟨h.1, nodup_map_mergeKey_upsertRow _ _ h.2⟩

theorem goodState_foldl (now : Nat) (recs : List ActionRecord) :
    ∀ s : PolicyState, GoodState s → GoodState (recs.foldl (processAction now) s) := by
  induction recs with
  | nil => intro s h; exact h
  | cons a rest ih => intro s h; exact ih _ (goodState_processAction now a h)

theorem nodup_mergedView {s : PolicyState} (h : GoodState s) :
    ((mergedView s).map mergeKey).Nodup :=
  nodup_map_mergeKey_foldl s.queued s.db h.1

/-- C8: `readFilteredData` applies each filter clause as specified: a row
is delivered exactly when it is in the combined view and matches the
filter, where an empty extension id matches every extension, the type ANY
matches every type, the API-name and page-URL constraints are string
prefix matches on the row's fields (so `http://www.goo` matches a page
URL `http://www.google.com/`), and a non-empty argument URL must match
exactly; over any state reached from the initial state by submits, each
matching merged row appears exactly once in the result. -/
theorem c8_filtered_read (now : Nat) (recs : List ActionRecord) (f : QueryFilter)
    (r : ActionRecord) :
    (r ∈ readFilteredData (recs.foldl (processAction now) initState) f ↔
      r ∈ mergedView (recs.foldl (processAction now) initState) ∧
        matchesFilter f r = true) ∧
    (r ∈ readFilteredData (recs.foldl (processAction now) initState) f →
      (readFilteredData (recs.foldl (processAction now) initState) f).count r = 1) ∧
    (matchesFilter f r = true ↔
      ((f.ext = "" ∨ r.extension_id = f.ext) ∧
       (f.typ = ActionType.any ∨ r.action_type = f.typ) ∧
       strStartsWith f.api r.api_name = true ∧
       strStartsWith f.pageUrlStart r.page_url = true ∧
       (f.argUrl = "" ∨ r.arg_url = f.argUrl))) := by
  have hgood : GoodState (recs.foldl (processAction now) initState) :=
    goodState_foldl now recs initState goodState_initState
  have hview : (mergedView (recs.foldl (processAction now) initState)).Nodup :=
    List.Nodup.of_map mergeKey (nodup_mergedView hgood)
  have hnodup : (readFilteredData (recs.foldl (processAction now) initState) f).Nodup :=
    List.Nodup.filter (matchesFilter f) hview
  refine ⟨List.mem_filter, ?_, ?_⟩
  · intro hr
    exact List.count_eq_one_of_mem hnodup hr
  · unfold matchesFilter
    simp [Bool.and_eq_true, Bool.or_eq_true, beq_iff_eq, and_assoc]

/-- Filter of the C8 witness: any extension, DOM accesses, any API name,
page URL starting with `http://www.goo`, any argument URL. -/
def c8Filter : QueryFilter :=
  { ext := "", typ := ActionType.domAccess, api := "",
    pageUrlStart := "http://www.goo", argUrl := "" }

/-- API-call action of the C8 witness (does not match the filter). -/
def c8Api : ActionRecord :=
  { extension_id := "ext1", time := 475100, action_type := ActionType.apiCall,
    api_name := "tabs.testMethod", args := some [], page_url := "",
    page_title := "", arg_url := "", count := 1 }

/-- DOM-access action of the C8 witness with normalized page URL
`http://www.google.com/` (matches the filter). -/
def c8Dom : ActionRecord :=
  { extension_id := "ext1", time := 475200, action_type := ActionType.domAccess,
    api_name := "document.write", args := some [],
    page_url := "http://www.google.com/", page_title := "", arg_url := "",
    count := 1 }

/-- Witness for C8 at a concrete input: the page-URL prefix
`http://www.goo` matches the stored row with page URL
`http://www.google.com/`, and that row appears exactly once. -/
theorem c8_filtered_read_witness :
    c8Dom ∈ readFilteredData ([c8Api, c8Dom].foldl (processAction 475200) initState)
      c8Filter ∧
    (readFilteredData ([c8Api, c8Dom].foldl (processAction 475200) initState)
      c8Filter).count c8Dom = 1 ∧
    matchesFilter c8Filter c8Dom = true :=
  ⟨by decide,
   (c8_filtered_read 475200 [c8Api, c8Dom] c8Filter c8Dom).2.1 (by decide),
   by decide⟩

/-! The argument-stripping scenario for the allow-listed API call. -/

/-- Submitted action of the C2 scenario: an API call to
`extension.connect` with arguments `hello` and `world`. -/
def c2Action : ActionRecord :=
  { extension_id := "odlameecjipmbmbejkplpemijjgpljce", time := 475200,
    action_type := ActionType.apiCall, api_name := "extension.connect",
    args := some ["hello", "world"], page_url := "", page_title := "",
    arg_url := "", count := 1 }

/-- Read-back of the C2 scenario on the day of submission. -/
def c2Result : List ActionRecord :=
  readData (processAction 475200 initState c2Action) 475200
    "odlameecjipmbmbejkplpemijjgpljce" 0

/-- C2 counterexample: the claim that this read-back yields one row with
empty or absent arguments is false: the row for `extension.connect` with
arguments `hello`, `world` retains its argument data (the unit test
asserts the read-back prints these arguments). -/
theorem c2_stripped_args_counterexample :
    ¬ ∃ row, c2Result = [row] ∧
      (row.args = none ∨ row.args = some ([] : List String)) ∧ row.count = 1 := by
  rintro ⟨row, hres, hargs, -⟩
  have hr : c2Result = [c2Action] := by decide
  rw [hr] at hres
  injection hres with h1 h2
  subst h1
  rcases hargs with h | h <;> exact absurd h (by decide)

/-- C2 amended: the stored record for the allow-listed API call
`extension.connect` with arguments `hello`, `world` retains its argument
data: reading it back yields one row whose arguments are exactly `hello`,
`world` with count 1. -/
theorem c2_args_retained :
    ∃ row, c2Result = [row] ∧ row.args = some ["hello", "world"] ∧ row.count = 1 :=
  ⟨c2Action, by decide, by decide, by decide⟩

end CountingPolicy
